import Mathlib

/-!
Verification of the `chainio` blockbeat subsystem of the lnd repository.

The repository contains two revisions of the package:
* the channel-returning revision (files shown as `unnamed/part_000` and
  `unnamed/part_002`): `Beat` is a value type holding a buffered `errChan`,
  `Consumer.ProcessBlock` returns the ack channel, and the dispatcher's
  `notifyAndWait` waits on that channel with a timeout;
* the error-returning revision (`chainio/blockbeat.go`, `chainio/consumer.go`,
  `chainio/interface.go`): `Beat` is a pointer type with a private `copy`,
  and `Consumer.ProcessBlock` blocks until the ack arrives and returns the
  error directly.

Both revisions are embedded below.  Go channels are modelled explicitly: a
buffered error channel of capacity one is a value of type
`Option (Option GoError)` (`none` = empty buffer, `some v` = buffer holding
the error value `v`, where `v = none` is Go's `nil` error), and channel
identities are natural numbers handed out by an explicit allocator, so that
"fresh channel" and "distinct channels" are expressible.  Go's `select`
non-determinism is resolved by explicit scenario / scheduler-choice
parameters.  Concurrent goroutines spawned by `DispatchConcurrent` are
modelled by the value each one eventually writes into its result channel,
together with an explicit map-iteration order for the dispatcher's wait loop.
-/

namespace Chainio

/-! ## Go errors

A Go error is either a base error created by `errors.New`, or a wrapping
error created by `fmt.Errorf` with a single `%w` verb: the format string
contributes text before and after the wrapped error's message, and
`errors.Is` unwraps through it. -/

inductive GoError where
  | base (msg : String)
  | wrapf (pre : String) (inner : GoError) (post : String)
deriving DecidableEq, Repr

/-- The `Error()` string of a Go error. -/
def GoError.message : GoError → String
  | .base m => m
  | .wrapf p inner post => p ++ inner.message ++ post

/-- `errors.Is err target` for errors built from `errors.New` and single-`%w`
`fmt.Errorf` wrapping: `err` is `target` or unwraps to it. -/
def GoError.isErr : GoError → GoError → Bool
  | e, target =>
    (e == target) ||
      (match e with
       | .base _ => false
       | .wrapf _ inner _ => inner.isErr target)

/-- `var ErrProcessBlockTimeout = errors.New("process block timeout")`. -/
def ErrProcessBlockTimeout : GoError := .base "process block timeout"

/-- `var ErrPkScriptMismatch = errors.New("pkscript mismatch")`. -/
def ErrPkScriptMismatch : GoError := .base "pkscript mismatch"

/-- `var DefaultProcessBlockTimeout = 60 * time.Second`, in nanoseconds
(Go's `time.Duration` unit; `time.Second = 1e9`). -/
def DefaultProcessBlockTimeout : Nat := 60 * 1000000000

/-! ## Bitcoin wire data (`btcd/wire`), as far as the scans consult it -/

/-- `wire.OutPoint`: a `(txid, output index)` reference. -/
structure OutPoint where
  txid : Nat
  index : Nat
deriving DecidableEq, Repr

/-- `wire.TxIn`, with the fields the scans consult.  Script and witness
bytes are abstracted as lists of naturals. -/
structure TxIn where
  previousOutPoint : OutPoint
  signatureScript : List Nat
  witness : List (List Nat)
deriving DecidableEq, Repr

/-- `wire.MsgTx`: an ordered list of inputs.  `hash` stands for the value of
`tx.TxHash()` (the double-SHA256 of the serialization, external to this
repository). -/
structure MsgTx where
  hash : Nat
  txIn : List TxIn
deriving DecidableEq, Repr

/-- `wire.MsgBlock`, reduced to its transaction list. -/
structure MsgBlock where
  transactions : List MsgTx
deriving DecidableEq, Repr

/-- `chainntnfs.BlockEpoch`: the height and block the beat carries. -/
structure BlockEpoch where
  height : Int
  block : MsgBlock
deriving DecidableEq, Repr

/-- `chainntnfs.SpendDetail` as filled in by the scans (the Go struct holds
pointers; here the referenced values are inlined). -/
structure SpendDetail where
  spentOutPoint : OutPoint
  spenderTxHash : Nat
  spendingTx : MsgTx
  spenderInputIndex : Nat
  spendingHeight : Int
deriving DecidableEq, Repr

/-! ## Beat (channel-returning revision, `unnamed/part_000`)

`Beat` holds the epoch and the identity of its buffered error channel.  The
logger field only prints diagnostics and carries no behaviour consulted by
the claims; it is omitted from this revision's record. -/

structure Beat where
  epoch : BlockEpoch
  errChan : Nat
deriving DecidableEq, Repr

/-- `NewBeat(epoch)`: a beat with the given epoch and a freshly allocated
buffered error channel.  `fresh` is the allocator state: the next unused
channel identity; a fresh channel starts out empty. -/
def NewBeat (epoch : BlockEpoch) (fresh : Nat) : Beat × Nat :=
  (⟨epoch, fresh⟩, fresh + 1)

/-- `Beat.Height`: `b.epoch.Height`. -/
def Beat.Height (b : Beat) : Int :=
  b.epoch.height

/-- The `SpendDetail` both scans build for a match on input `i` of `tx`. -/
def mkSpendDetail (height : Int) (outpoint : OutPoint) (tx : MsgTx) (i : Nat) :
    SpendDetail :=
  { spentOutPoint := outpoint
    spenderTxHash := tx.hash
    spendingTx := tx
    spenderInputIndex := i
    spendingHeight := height }

/-- Inner loop of `Beat.HasOutpointSpent`: scan the inputs of `tx` in order,
`i` being the index of the first element of `ins` within `tx.txIn`. -/
def scanTxIns (height : Int) (outpoint : OutPoint) (tx : MsgTx) (i : Nat) :
    List TxIn → Option SpendDetail
  | [] => none
  | txIn :: rest =>
    if txIn.previousOutPoint = outpoint then
      some (mkSpendDetail height outpoint tx i)
    else
      scanTxIns height outpoint tx (i + 1) rest

/-- Outer loop of `Beat.HasOutpointSpent`: scan the block's transactions in
order, returning on the first transaction containing a spending input. -/
def scanBlockTxs (height : Int) (outpoint : OutPoint) :
    List MsgTx → Option SpendDetail
  | [] => none
  | tx :: rest =>
    match scanTxIns height outpoint tx 0 tx.txIn with
    | some details => some details
    | none => scanBlockTxs height outpoint rest

/-- `Beat.HasOutpointSpent(outpoint)`: linear scan over the block's
transactions and each transaction's inputs; the first input whose previous
outpoint equals the query yields the spend details. -/
def Beat.HasOutpointSpent (b : Beat) (outpoint : OutPoint) :
    Option SpendDetail :=
  scanBlockTxs b.epoch.height outpoint b.epoch.block.transactions

/-- Does `txIn` spend `outpoint`?  (Boolean form used by the specification
rendering of the scan.) -/
def txInSpends (outpoint : OutPoint) (txIn : TxIn) : Bool :=
  txIn.previousOutPoint == outpoint

/-- Does some input of `tx` spend `outpoint`? -/
def txSpends (outpoint : OutPoint) (tx : MsgTx) : Bool :=
  tx.txIn.any (txInSpends outpoint)

/-- Specification rendering of `HasOutpointSpent`, following the spec's
words: find the first transaction with a spending input, and within it the
position of the first spending input. -/
def hasOutpointSpentSpec (b : Beat) (outpoint : OutPoint) :
    Option SpendDetail :=
  match b.epoch.block.transactions.find? (txSpends outpoint) with
  | none => none
  | some tx =>
    some (mkSpendDetail b.epoch.height outpoint tx
      (tx.txIn.findIdx (txInSpends outpoint)))

theorem scanTxIns_eq (height : Int) (outpoint : OutPoint) (tx : MsgTx) :
    ∀ (ins : List TxIn) (i : Nat),
      scanTxIns height outpoint tx i ins =
        if ins.any (txInSpends outpoint) then
          some (mkSpendDetail height outpoint tx
            (i + ins.findIdx (txInSpends outpoint)))
        else none := by
  intro ins
  induction ins with
  | nil => intro i; simp [scanTxIns]
  | cons txIn rest ih =>
    intro i
    by_cases h : txIn.previousOutPoint = outpoint
    · simp [scanTxIns, h, List.any_cons, List.findIdx_cons, txInSpends]
    · have hb : txInSpends outpoint txIn = false := by
        simp [txInSpends, h]
      simp only [scanTxIns, if_neg h, ih (i + 1), List.any_cons, hb,
        Bool.false_or, List.findIdx_cons, cond_false]
      by_cases hrest : rest.any (txInSpends outpoint)
      · simp only [hrest, if_true]
        congr 1
        simp [mkSpendDetail]
        omega
      · simp [hrest]

theorem scanBlockTxs_eq (height : Int) (outpoint : OutPoint) :
    ∀ txs : List MsgTx,
      scanBlockTxs height outpoint txs =
        match txs.find? (txSpends outpoint) with
        | none => none
        | some tx =>
          some (mkSpendDetail height outpoint tx
            (tx.txIn.findIdx (txInSpends outpoint))) := by
  intro txs
  induction txs with
  | nil => simp [scanBlockTxs]
  | cons tx rest ih =>
    by_cases h : txSpends outpoint tx
    · simp only [scanBlockTxs, scanTxIns_eq, txSpends] at *
      simp [txSpends] at h
      simp [h, List.find?_cons, txSpends]
    · have h' : tx.txIn.any (txInSpends outpoint) = false := by
        simpa [txSpends] using h
      simp only [scanBlockTxs, scanTxIns_eq, h', if_false, ih]
      simp [List.find?_cons, txSpends, h']

/-- Claim C2: for every block held by a Beat and every outpoint, the scan
`HasOutpointSpent` returns a non-null `SpendDetail` iff some input of some
transaction of the block has previous-outpoint equal to the query; the
returned detail describes the first spending input of the first spending
transaction in scan order, its spender hash is that transaction's hash, and
its spending height is the beat's height. -/
theorem hasOutpointSpent_first_match (b : Beat) (outpoint : OutPoint) :
    b.HasOutpointSpent outpoint = hasOutpointSpentSpec b outpoint
    ∧ ((b.HasOutpointSpent outpoint).isSome ↔
        ∃ tx ∈ b.epoch.block.transactions, ∃ txIn ∈ tx.txIn,
          txIn.previousOutPoint = outpoint)
    ∧ (∀ d, b.HasOutpointSpent outpoint = some d →
        d.spendingHeight = b.epoch.height ∧ d.spentOutPoint = outpoint ∧
          d.spenderTxHash = d.spendingTx.hash) := by
  have heq : b.HasOutpointSpent outpoint = hasOutpointSpentSpec b outpoint := by
    rw [Beat.HasOutpointSpent, scanBlockTxs_eq, hasOutpointSpentSpec]
  refine ⟨heq, ?_, ?_⟩
  · rw [heq, hasOutpointSpentSpec]
    rcases hfind : b.epoch.block.transactions.find? (txSpends outpoint) with
      _ | tx
    · simp only [Option.isSome_none, Bool.false_eq_true, false_iff]
      rintro ⟨tx, htx, txIn, hIn, hspend⟩
      have := List.find?_eq_none.mp hfind tx htx
      simp only [txSpends, List.any_eq_true, txInSpends] at this
      exact this ⟨txIn, hIn, by simp [hspend]⟩
    · simp only [Option.isSome_some, true_iff]
      have hmem := List.mem_of_find?_eq_some hfind
      have hp := List.find?_some hfind
      simp only [txSpends, List.any_eq_true, txInSpends, beq_iff_eq] at hp
      obtain ⟨txIn, hIn, hspend⟩ := hp
      exact ⟨tx, hmem, txIn, hIn, hspend⟩
  · intro d hd
    rw [heq, hasOutpointSpentSpec] at hd
    rcases hfind : b.epoch.block.transactions.find? (txSpends outpoint) with
      _ | tx <;> rw [hfind] at hd
    · cases hd
    · cases hd
      simp [mkSpendDetail]

/-! ## Consumers as the dispatcher sees them (`unnamed/part_000`)

`notifyAndWait` hands the consumer a fresh beat copy and then selects
between the value read from the channel `ProcessBlock` returned and the
expiry of `DefaultProcessBlockTimeout`.  A consumer is therefore modelled by
its name together with which arm of that select fires: `ack v` when the
value `v` (`none` = Go's `nil`) arrives on the returned channel within the
timeout, `timeout` when nothing arrives in time. -/

inductive ConsumerOutcome where
  | ack (err : Option GoError)
  | timeout
deriving DecidableEq, Repr

structure ConsumerModel where
  name : String
  outcome : ConsumerOutcome
deriving DecidableEq, Repr

/-- The error `notifyAndWait` produces for consumer `c`, one case per arm of
its select: `nil` on ack-with-nil, `fmt.Errorf("%s: ProcessBlock got: %w",
c.Name(), err)` on ack-with-error, and `fmt.Errorf("consumer %s: %w",
c.Name(), ErrProcessBlockTimeout)` on timeout. -/
def notifyResult (c : ConsumerModel) : Option GoError :=
  match c.outcome with
  | .ack none => none
  | .ack (some err) =>
    some (.wrapf (c.name ++ ": ProcessBlock got: ") err "")
  | .timeout =>
    some (.wrapf ("consumer " ++ c.name ++ ": ") ErrProcessBlockTimeout "")

/-- `Beat.notifyAndWait(c)`: construct a fresh beat copy via
`NewBeat(b.epoch)`, hand it to the consumer, and wait on the returned
channel with the timeout.  Besides the returned error the model exposes the
beat copy that was delivered and the advanced allocator state. -/
def Beat.notifyAndWait (b : Beat) (c : ConsumerModel) (fresh : Nat) :
    Option GoError × Beat × Nat :=
  let (beatCopy, fresh') := NewBeat b.epoch fresh
  (notifyResult c, beatCopy, fresh')

/-- `Beat.DispatchSequential(consumers)`: notify the consumers one at a time
in the order given, aborting on the first error.  The middle component is
the delivery trace: for each consumer that was notified, in order, its name
and the beat copy it was handed. -/
def Beat.DispatchSequential (b : Beat) :
    List ConsumerModel → Nat → Option GoError × List (String × Beat) × Nat
  | [], fresh => (none, [], fresh)
  | c :: rest, fresh =>
    let r := b.notifyAndWait c fresh
    match r.1 with
    | some err => (some err, [(c.name, r.2.1)], r.2.2)
    | none =>
      let tailOut := b.DispatchSequential rest r.2.2
      (tailOut.1, (c.name, r.2.1) :: tailOut.2.1, tailOut.2.2)

/-- How many consumers of `cs` a sequential dispatch notifies: everything up
to and including the first consumer whose `notifyAndWait` errs. -/
def notifiedCount : List ConsumerModel → Nat
  | [] => 0
  | c :: rest =>
    match notifyResult c with
    | some _ => 1
    | none => 1 + notifiedCount rest

/-- The error of the first consumer of `cs` whose `notifyAndWait` errs. -/
def firstNotifyError : List ConsumerModel → Option GoError
  | [] => none
  | c :: rest =>
    match notifyResult c with
    | some err => some err
    | none => firstNotifyError rest

theorem dispatchSequential_nil (b : Beat) (fresh : Nat) :
    b.DispatchSequential [] fresh = (none, [], fresh) :=
  rfl

theorem dispatchSequential_cons_err (b : Beat) (c : ConsumerModel)
    (rest : List ConsumerModel) (fresh : Nat) (err : GoError)
    (h : notifyResult c = some err) :
    b.DispatchSequential (c :: rest) fresh =
      (some err, [(c.name, ⟨b.epoch, fresh⟩)], fresh + 1) := by
  simp [Beat.DispatchSequential, Beat.notifyAndWait, NewBeat, h]

theorem dispatchSequential_cons_ok (b : Beat) (c : ConsumerModel)
    (rest : List ConsumerModel) (fresh : Nat)
    (h : notifyResult c = none) :
    b.DispatchSequential (c :: rest) fresh =
      ((b.DispatchSequential rest (fresh + 1)).1,
        (c.name, (⟨b.epoch, fresh⟩ : Beat)) ::
          (b.DispatchSequential rest (fresh + 1)).2.1,
        (b.DispatchSequential rest (fresh + 1)).2.2) := by
  simp [Beat.DispatchSequential, Beat.notifyAndWait, NewBeat, h]

theorem notifyResult_eq_none (c : ConsumerModel) :
    notifyResult c = none ↔ c.outcome = ConsumerOutcome.ack none := by
  rcases c with ⟨name, outcome⟩
  rcases outcome with err | _
  · rcases err with _ | err <;> simp [notifyResult]
  · simp [notifyResult]

/-- What claim C3 asserts of a sequential dispatch of `b` to `cs` with
allocator state `fresh`: writing `(res, delivered, _)` for the run's result
and delivery trace,
* the consumers notified are exactly the prefix of `cs` up to and including
  the first erroring one, in the order given;
* every delivered beat copy shares `b`'s epoch;
* the delivered ack channels are the consecutive fresh identities, hence
  pairwise distinct, and none of them is `b`'s own channel;
* the returned error is the first consumer error (`none` when every
  consumer acks `nil`, in which case no consumer is skipped). -/
def SeqDispatchSpec (b : Beat) (cs : List ConsumerModel) (fresh : Nat) :
    Prop :=
  (b.DispatchSequential cs fresh).2.1.map Prod.fst =
      (cs.take (notifiedCount cs)).map ConsumerModel.name
  ∧ (∀ p ∈ (b.DispatchSequential cs fresh).2.1, (p.2).epoch = b.epoch)
  ∧ (b.DispatchSequential cs fresh).2.1.map (fun p => (p.2).errChan) =
      List.range' fresh (notifiedCount cs)
  ∧ ((b.DispatchSequential cs fresh).2.1.map
      (fun p => (p.2).errChan)).Pairwise (fun x y => x ≠ y)
  ∧ (∀ p ∈ (b.DispatchSequential cs fresh).2.1, (p.2).errChan ≠ b.errChan)
  ∧ (b.DispatchSequential cs fresh).1 = firstNotifyError cs
  ∧ ((b.DispatchSequential cs fresh).1 = none ↔
      ∀ c ∈ cs, c.outcome = ConsumerOutcome.ack none)

/-- Claim C3: `DispatchSequential` notifies the consumers one at a time in
exactly the order given, handing each a fresh beat copy that shares the
original epoch but has its own new ack channel (pairwise distinct across
deliveries, and distinct from the dispatching beat's own channel); it
returns `nil` when every consumer succeeds, and on the first consumer whose
`notifyAndWait` errs it returns that error without notifying any later
consumer.  (`SeqDispatchSpec` spells the conjunction out.) -/
theorem dispatchSequential_fresh_ordered (b : Beat) (cs : List ConsumerModel)
    (fresh : Nat) (hfresh : b.errChan < fresh) : SeqDispatchSpec b cs fresh := by
  induction cs generalizing fresh with
  | nil =>
    simp [SeqDispatchSpec, dispatchSequential_nil, notifiedCount,
      firstNotifyError]
  | cons c rest ih =>
    rcases h : notifyResult c with _ | err
    · obtain ⟨h1, h2, h3, h4, h5, h6, h7⟩ :=
        ih (fresh + 1) (Nat.lt_succ_of_lt hfresh)
      have hcount : notifiedCount (c :: rest) = notifiedCount rest + 1 := by
        simp [notifiedCount, h, Nat.add_comm]
      have hout : c.outcome = ConsumerOutcome.ack none :=
        (notifyResult_eq_none c).mp h
      refine ⟨?_, ?_, ?_, ?_, ?_, ?_, ?_⟩
      · rw [dispatchSequential_cons_ok b c rest fresh h, hcount]
        simpa using h1
      · rw [dispatchSequential_cons_ok b c rest fresh h]
        dsimp only
        intro p hp
        rcases List.mem_cons.mp hp with rfl | hp'
        · rfl
        · exact h2 p hp'
      · rw [dispatchSequential_cons_ok b c rest fresh h, hcount,
          List.range'_succ]
        simpa using h3
      · rw [dispatchSequential_cons_ok b c rest fresh h]
        dsimp only
        rw [List.map_cons]
        rw [show ((⟨b.epoch, fresh⟩ : Beat).errChan) = fresh from rfl, h3]
        have hnd : (List.range' fresh (notifiedCount rest + 1)).Nodup :=
          List.nodup_range' fresh (notifiedCount rest + 1)
        rwa [List.range'_succ] at hnd
      · rw [dispatchSequential_cons_ok b c rest fresh h]
        dsimp only
        intro p hp
        rcases List.mem_cons.mp hp with rfl | hp'
        · exact fun hc => absurd hc.symm (Nat.ne_of_lt hfresh)
        · exact h5 p hp'
      · rw [dispatchSequential_cons_ok b c rest fresh h]
        simpa [firstNotifyError, h] using h6
      · rw [dispatchSequential_cons_ok b c rest fresh h]
        dsimp only
        rw [h7]
        constructor
        · intro hall c' hc'
          rcases List.mem_cons.mp hc' with rfl | hc''
          · exact hout
          · exact hall c' hc''
        · intro hall c' hc'
          exact hall c' (List.mem_cons_of_mem _ hc')
    · have hcount : notifiedCount (c :: rest) = 1 := by
        simp [notifiedCount, h]
      have hne : c.outcome ≠ ConsumerOutcome.ack none := by
        intro hc
        rw [(notifyResult_eq_none c).mpr hc] at h
        cases h
      rw [SeqDispatchSpec, dispatchSequential_cons_err b c rest fresh err h,
        hcount]
      refine ⟨by simp, ?_, by simp [List.range'], by simp, ?_, ?_, ?_⟩
      · intro p hp
        rcases List.mem_singleton.mp hp with rfl
        rfl
      · intro p hp
        rcases List.mem_singleton.mp hp with rfl
        exact fun hc => absurd hc.symm (Nat.ne_of_lt hfresh)
      · simp [firstNotifyError, h]
      · constructor
        · intro hcontra; cases hcontra
        · intro hall
          exact absurd (hall c (List.mem_cons_self c rest)) hne

/-- Witness for C3: a three-consumer dispatch in which the second consumer
acks with an error; the third is never notified and the trace records the
fresh channels `1` and `2`. -/
theorem dispatchSequential_fresh_ordered_witness :
    (⟨⟨7, ⟨[]⟩⟩, 0⟩ : Beat).errChan < 1 ∧
      SeqDispatchSpec ⟨⟨7, ⟨[]⟩⟩, 0⟩
        [⟨"a", .ack none⟩, ⟨"b", .ack (some (.base "boom"))⟩,
          ⟨"c", .ack none⟩] 1 :=
  ⟨by decide,
    dispatchSequential_fresh_ordered ⟨⟨7, ⟨[]⟩⟩, 0⟩
      [⟨"a", .ack none⟩, ⟨"b", .ack (some (.base "boom"))⟩,
        ⟨"c", .ack none⟩] 1 (by decide)⟩

theorem GoError.isErr_self (e : GoError) : e.isErr e = true := by
  cases e <;> simp [GoError.isErr]

/-- Claim C4: `notifyAndWait(c)` returns `nil` when the consumer acks with
`nil`; when the consumer acks with error `e` it returns an error wrapping
`e` whose message is `"<consumer name>: ProcessBlock got: <e>"`; when no ack
arrives within `DefaultProcessBlockTimeout` (60 seconds by default,
`60 * 10^9` nanoseconds) it returns an error wrapping
`ErrProcessBlockTimeout` whose message carries the consumer's name. -/
theorem notifyAndWait_result (b : Beat) (c : ConsumerModel) (fresh : Nat) :
    (c.outcome = ConsumerOutcome.ack none →
      (b.notifyAndWait c fresh).1 = none)
    ∧ (∀ e, c.outcome = ConsumerOutcome.ack (some e) →
        ∃ werr, (b.notifyAndWait c fresh).1 = some werr
          ∧ werr.message = c.name ++ ": ProcessBlock got: " ++ e.message
          ∧ werr.isErr e = true)
    ∧ (c.outcome = ConsumerOutcome.timeout →
        ∃ werr, (b.notifyAndWait c fresh).1 = some werr
          ∧ werr.isErr ErrProcessBlockTimeout = true
          ∧ werr.message = "consumer " ++ c.name ++ ": process block timeout")
    ∧ DefaultProcessBlockTimeout = 60 * 1000000000 := by
  refine ⟨?_, ?_, ?_, rfl⟩
  · intro h
    simp [Beat.notifyAndWait, NewBeat, notifyResult, h]
  · intro e h
    refine ⟨.wrapf (c.name ++ ": ProcessBlock got: ") e "", ?_, ?_, ?_⟩
    · simp [Beat.notifyAndWait, NewBeat, notifyResult, h]
    · simp [GoError.message, String.append_assoc]
    · simp [GoError.isErr, GoError.isErr_self]
  · intro h
    refine ⟨.wrapf ("consumer " ++ c.name ++ ": ") ErrProcessBlockTimeout "",
      ?_, ?_, ?_⟩
    · simp [Beat.notifyAndWait, NewBeat, notifyResult, h]
    · simp [GoError.isErr]
    · simp [GoError.message, ErrProcessBlockTimeout, String.append_assoc]

/-! ## Concurrent dispatch (`unnamed/part_000`, `DispatchConcurrent`)

The registration loop allocates one buffered result channel per consumer
and stores it in a Go map keyed by the consumer's name, so a later consumer
with the same name replaces the earlier one's entry and the map finally
holds, per name, the channel of the last consumer so named.  Each goroutine
eventually writes its `notifyAndWait` result into its own channel and exits
(the one-slot buffer makes the write non-blocking).  The wait loop ranges
over the map — Go map iteration order is arbitrary, modelled by an explicit
`order` list over the map's keys — and reads one result channel at a time;
reading a channel is the only synchronisation with that consumer's
completion, so the trace of names read before returning is exactly the set
of consumers whose `notifyAndWait` completion the call waited for.  On the
first error read, the loop returns it at once without reading the remaining
channels. -/

/-- The wait loop of `DispatchConcurrent`: `f n` is the value consumer
`n`'s goroutine writes into its result channel.  Returns the dispatch
result together with the trace of names whose channels were read. -/
def waitOnChans (f : String → Option GoError) :
    List String → Option GoError × List String
  | [] => (none, [])
  | n :: rest =>
    match f n with
    | some err => (some err, [n])
    | none =>
      let out := waitOnChans f rest
      (out.1, n :: out.2)

/-- `Beat.DispatchConcurrent(consumers)` with map-iteration order `order`:
the map holds per name the channel of the last consumer so named (Go map
insert replaces), and that channel eventually carries the consumer's
`notifyAndWait` result. -/
def Beat.DispatchConcurrent (b : Beat) (cs : List ConsumerModel)
    (order : List String) (fresh : Nat) : Option GoError × List String :=
  waitOnChans
    (fun n =>
      ((cs.filter (fun c => c.name == n)).getLast?).bind
        (fun c => (b.notifyAndWait c fresh).1))
    order

theorem notifyAndWait_fst (b : Beat) (c : ConsumerModel) (fresh : Nat) :
    (b.notifyAndWait c fresh).1 = notifyResult c :=
  rfl

theorem waitOnChans_spec (f : String → Option GoError) :
    ∀ order : List String,
      ((∀ n ∈ order, f n = none) → waitOnChans f order = (none, order))
      ∧ ((waitOnChans f order).1 = none ↔ ∀ n ∈ order, f n = none)
      ∧ (∀ e, (waitOnChans f order).1 = some e →
          ∃ pre n, (waitOnChans f order).2 = pre ++ [n]
            ∧ order = pre ++ n :: order.drop (pre.length + 1)
            ∧ (∀ m ∈ pre, f m = none) ∧ f n = some e) := by
  intro order
  induction order with
  | nil =>
    refine ⟨fun _ => rfl, by simp [waitOnChans], ?_⟩
    intro e h
    simp [waitOnChans] at h
  | cons n rest ih =>
    obtain ⟨ih1, ih2, ih3⟩ := ih
    cases hf : f n with
    | some e0 =>
      have hrw : waitOnChans f (n :: rest) = (some e0, [n]) := by
        simp [waitOnChans, hf]
      refine ⟨?_, ?_, ?_⟩
      · intro hall
        exact absurd (hall n (List.mem_cons_self n rest)) (by simp [hf])
      · rw [hrw]
        constructor
        · intro h; cases h
        · intro hall
          exact absurd (hall n (List.mem_cons_self n rest)) (by simp [hf])
      · intro e he
        rw [hrw] at he ⊢
        obtain rfl : e0 = e := by injection he
        exact ⟨[], n, by simp, by simp, by simp, hf⟩
    | none =>
      have hrw : waitOnChans f (n :: rest) =
          ((waitOnChans f rest).1, n :: (waitOnChans f rest).2) := by
        simp [waitOnChans, hf]
      refine ⟨?_, ?_, ?_⟩
      · intro hall
        have htail := ih1 (fun m hm => hall m (List.mem_cons_of_mem _ hm))
        rw [hrw, htail]
      · rw [hrw]
        dsimp only
        rw [ih2]
        constructor
        · intro hall m hm
          rcases List.mem_cons.mp hm with rfl | hm'
          · exact hf
          · exact hall m hm'
        · intro hall m hm
          exact hall m (List.mem_cons_of_mem _ hm)
      · intro e he
        rw [hrw] at he
        obtain ⟨pre, n', hsplit, horder, hpre, hn'⟩ := ih3 e he
        refine ⟨n :: pre, n', ?_, ?_, ?_, hn'⟩
        · rw [hrw]
          dsimp only
          rw [hsplit]
          rfl
        · simp only [List.cons_append, List.length_cons, List.drop_succ_cons]
          rw [← horder]
        · intro m hm
          rcases List.mem_cons.mp hm with rfl | hm'
          · exact hf
          · exact hpre m hm'

theorem find?_name_eq_self (cs : List ConsumerModel) (c : ConsumerModel)
    (hnodup : (cs.map ConsumerModel.name).Nodup) (hc : c ∈ cs) :
    cs.find? (fun x => x.name == c.name) = some c := by
  induction cs with
  | nil => cases hc
  | cons d rest ih =>
    have hnodup' : (∀ x ∈ rest, x.name ≠ d.name)
        ∧ (rest.map ConsumerModel.name).Nodup := by
      simpa using hnodup
    rcases List.mem_cons.mp hc with rfl | hc'
    · simp [List.find?]
    · have hd : (d.name == c.name) = false := by
        simp only [beq_eq_false_iff_ne, ne_eq]
        intro hcontra
        exact hnodup'.1 c hc' hcontra.symm
      simp only [List.find?, hd]
      exact ih hnodup'.2 hc'

theorem filter_name_getLast_eq_find? (cs : List ConsumerModel) (n : String)
    (hnodup : (cs.map ConsumerModel.name).Nodup) :
    (cs.filter (fun c => c.name == n)).getLast? =
      cs.find? (fun c => c.name == n) := by
  induction cs with
  | nil => rfl
  | cons d rest ih =>
    have hnodup' : (∀ x ∈ rest, x.name ≠ d.name)
        ∧ (rest.map ConsumerModel.name).Nodup := by
      simpa using hnodup
    cases hd : (d.name == n) with
    | true =>
      have hdn : d.name = n := by simpa using hd
      have hrest : rest.filter (fun c => c.name == n) = [] := by
        rw [List.filter_eq_nil_iff]
        intro c hc
        simp only [beq_iff_eq]
        intro hcontra
        exact hnodup'.1 c hc (hcontra.trans hdn.symm)
      rw [List.filter_cons, List.find?]
      rw [hd, hrest]
      rfl
    | false =>
      rw [List.filter_cons, List.find?]
      rw [hd]
      simpa using ih hnodup'.2

/-- What the amended claim C1 asserts of `DispatchConcurrent` (map-iteration
order `order` over pairwise-distinct consumer names): writing
`(res, awaited)` for the result and the trace of consumers waited for,
* when all consumers succeed, the call waits for every consumer and
  returns `nil`;
* `nil` is returned exactly when every consumer succeeded (an error is
  surfaced whenever some task erred);
* when an error is returned, it is the first error in wait order, and the
  call has waited only for the consumers up to and including the erroring
  one — the remaining siblings' completions were not waited for. -/
def ConcDispatchSpec (b : Beat) (cs : List ConsumerModel)
    (order : List String) (fresh : Nat) : Prop :=
  ((∀ c ∈ cs, notifyResult c = none) →
      (b.DispatchConcurrent cs order fresh).1 = none
      ∧ (b.DispatchConcurrent cs order fresh).2 = order
      ∧ ∀ c ∈ cs, c.name ∈ (b.DispatchConcurrent cs order fresh).2)
  ∧ ((b.DispatchConcurrent cs order fresh).1 = none ↔
      ∀ c ∈ cs, notifyResult c = none)
  ∧ (∀ e, (b.DispatchConcurrent cs order fresh).1 = some e →
      ∃ pre n, (b.DispatchConcurrent cs order fresh).2 = pre ++ [n]
        ∧ order = pre ++ n :: order.drop (pre.length + 1)
        ∧ (∀ m ∈ pre, ∃ c ∈ cs, c.name = m ∧ notifyResult c = none)
        ∧ (∃ c ∈ cs, c.name = n ∧ notifyResult c = some e))

/-- Amended claim C1 (see the counterexample for the original): concurrent
dispatch waits for every consumer only on the all-success path; an erroring
consumer makes it return that error having waited only for the wait-order
prefix ending at the erroring consumer. -/
theorem dispatchConcurrent_first_error_only (b : Beat)
    (cs : List ConsumerModel) (order : List String) (fresh : Nat)
    (hnodup : (cs.map ConsumerModel.name).Nodup)
    (hperm : order.Perm (cs.map ConsumerModel.name)) :
    ConcDispatchSpec b cs order fresh := by
  have hD : b.DispatchConcurrent cs order fresh =
      waitOnChans
        (fun n =>
          ((cs.filter (fun c => c.name == n)).getLast?).bind
            (fun c => (b.notifyAndWait c fresh).1))
        order := rfl
  set f := fun n =>
    ((cs.filter (fun c => c.name == n)).getLast?).bind
      (fun c => (b.notifyAndWait c fresh).1) with hfdef
  have hf_eq : ∀ n, f n = (cs.find? (fun c => c.name == n)).bind
      notifyResult := by
    intro n
    rw [hfdef]
    dsimp only
    rw [filter_name_getLast_eq_find? cs n hnodup]
    rfl
  have hfc : ∀ c ∈ cs, f c.name = notifyResult c := by
    intro c hc
    rw [hf_eq, find?_name_eq_self cs c hnodup hc]
    rfl
  have hmem : ∀ n ∈ order, ∃ c ∈ cs, c.name = n := by
    intro n hn
    have hn' : n ∈ cs.map ConsumerModel.name := hperm.mem_iff.mp hn
    obtain ⟨c, hc, hcn⟩ := List.mem_map.mp hn'
    exact ⟨c, hc, hcn⟩
  obtain ⟨w1, w2, w3⟩ := waitOnChans_spec f order
  refine ⟨?_, ?_, ?_⟩
  · intro hall
    have hallf : ∀ n ∈ order, f n = none := by
      intro n hn
      obtain ⟨c, hc, hcn⟩ := hmem n hn
      rw [← hcn, hfc c hc]
      exact hall c hc
    have hout := w1 hallf
    rw [hD, hout]
    refine ⟨rfl, rfl, ?_⟩
    intro c hc
    exact hperm.mem_iff.mpr (List.mem_map_of_mem ConsumerModel.name hc)
  · rw [hD, w2]
    constructor
    · intro hallf c hc
      have := hallf c.name
        (hperm.mem_iff.mpr (List.mem_map_of_mem ConsumerModel.name hc))
      rwa [hfc c hc] at this
    · intro hall n hn
      obtain ⟨c, hc, hcn⟩ := hmem n hn
      rw [← hcn, hfc c hc]
      exact hall c hc
  · intro e he
    rw [hD] at he
    obtain ⟨pre, n, hsplit, horder, hpre, hn⟩ := w3 e he
    refine ⟨pre, n, by rw [hD]; exact hsplit, horder, ?_, ?_⟩
    · intro m hm
      have hmo : m ∈ order := by
        rw [horder]
        exact List.mem_append_left _ hm
      obtain ⟨c, hc, hcn⟩ := hmem m hmo
      refine ⟨c, hc, hcn, ?_⟩
      have hv := hpre m hm
      rw [← hcn, hfc c hc] at hv
      exact hv
    · rw [hf_eq] at hn
      cases hfind : cs.find? (fun c => c.name == n) with
      | none => rw [hfind] at hn; cases hn
      | some c =>
        rw [hfind] at hn
        have hcmem := List.mem_of_find?_eq_some hfind
        have hcname : c.name = n := by simpa using List.find?_some hfind
        exact ⟨c, hcmem, hcname, hn⟩

/-- Witness for the amended claim C1, at a two-consumer input whose second
consumer in wait order times out. -/
theorem dispatchConcurrent_first_error_only_witness :
    ((([⟨"a", .ack none⟩, ⟨"b", .timeout⟩] : List ConsumerModel).map
        ConsumerModel.name).Nodup
      ∧ (["b", "a"] : List String).Perm
          (([⟨"a", .ack none⟩, ⟨"b", .timeout⟩] : List ConsumerModel).map
            ConsumerModel.name))
    ∧ ConcDispatchSpec ⟨⟨7, ⟨[]⟩⟩, 0⟩
        [⟨"a", .ack none⟩, ⟨"b", .timeout⟩] ["b", "a"] 1 :=
  ⟨⟨by decide, by decide⟩,
    dispatchConcurrent_first_error_only ⟨⟨7, ⟨[]⟩⟩, 0⟩
      [⟨"a", .ack none⟩, ⟨"b", .timeout⟩] ["b", "a"] 1
      (by decide) (by decide)⟩

/-- Counterexample to claim C1 as stated: with consumers `a` (acks an
error) and `b` (acks `nil`) and map-iteration order `["a", "b"]`, the
dispatch returns `a`'s error having read only `a`'s result channel — it
does not wait for sibling `b`'s `notifyAndWait` to complete. -/
theorem dispatchConcurrent_no_wait_for_siblings :
    ((Beat.DispatchConcurrent ⟨⟨7, ⟨[]⟩⟩, 0⟩
        [⟨"a", .ack (some (.base "boom"))⟩, ⟨"b", .ack none⟩]
        ["a", "b"] 1).1).isSome = true
    ∧ ¬ (∀ c ∈ ([⟨"a", .ack (some (.base "boom"))⟩, ⟨"b", .ack none⟩] :
          List ConsumerModel),
        c.name ∈ (Beat.DispatchConcurrent ⟨⟨7, ⟨[]⟩⟩, 0⟩
          [⟨"a", .ack (some (.base "boom"))⟩, ⟨"b", .ack none⟩]
          ["a", "b"] 1).2) := by
  decide

/-! ## HasOutpointSpentByScript (`unnamed/part_000`)

`txscript.PkScript` carries a script class and the script bytes;
`txscript.ComputePkScript` (external to this repository) reconstructs the
spent pay-to script from an input's signature script and witness, and can
fail; it is passed in as an abstract function `cps`. -/

inductive ScriptClass where
  | witnessV1TaprootTy
  | nonTaproot (tag : Nat)
deriving DecidableEq, Repr

structure PkScript where
  scriptClass : ScriptClass
  script : List Nat
deriving DecidableEq, Repr

/-- The `matchTxIn` closure: does `txIn` spend `outpoint` under `pkScript`?
`isTaproot` caches `pkScript.Class() == txscript.WitnessV1TaprootTy`; when
it holds the script check is skipped.  Otherwise the spent script is
reconstructed by `cps` and compared, a disagreement yielding an error
wrapping `ErrPkScriptMismatch`. -/
def matchTxIn (cps : List Nat → List (List Nat) → Except GoError PkScript)
    (outpoint : OutPoint) (pkScript : PkScript) (isTaproot : Bool)
    (txIn : TxIn) : Except GoError Bool :=
  if txIn.previousOutPoint ≠ outpoint then .ok false
  else if isTaproot then .ok true
  else
    match cps txIn.signatureScript txIn.witness with
    | .error err => .error err
    | .ok script =>
      if script ≠ pkScript then
        .error (.wrapf "" ErrPkScriptMismatch
          (": want " ++ reprStr pkScript ++ ", got " ++ reprStr script))
      else .ok true

/-- Inner loop of `HasOutpointSpentByScript` over the inputs of one
transaction. -/
def scanTxInsScript (cps : List Nat → List (List Nat) → Except GoError PkScript)
    (height : Int) (outpoint : OutPoint) (pkScript : PkScript)
    (isTaproot : Bool) (tx : MsgTx) (i : Nat) :
    List TxIn → Except GoError (Option SpendDetail)
  | [] => .ok none
  | txIn :: rest =>
    match matchTxIn cps outpoint pkScript isTaproot txIn with
    | .error err => .error err
    | .ok true => .ok (some (mkSpendDetail height outpoint tx i))
    | .ok false =>
      scanTxInsScript cps height outpoint pkScript isTaproot tx (i + 1) rest

/-- Outer loop of `HasOutpointSpentByScript` over the block's
transactions. -/
def scanBlockTxsScript
    (cps : List Nat → List (List Nat) → Except GoError PkScript)
    (height : Int) (outpoint : OutPoint) (pkScript : PkScript)
    (isTaproot : Bool) : List MsgTx → Except GoError (Option SpendDetail)
  | [] => .ok none
  | tx :: rest =>
    match scanTxInsScript cps height outpoint pkScript isTaproot tx 0
      tx.txIn with
    | .error err => .error err
    | .ok (some details) => .ok (some details)
    | .ok none => scanBlockTxsScript cps height outpoint pkScript isTaproot rest

/-- `Beat.HasOutpointSpentByScript(outpoint, pkScript)`.  The Go signature
`(*SpendDetail, error)` is rendered as `Except GoError (Option SpendDetail)`
(the source never returns both a detail and an error). -/
def Beat.HasOutpointSpentByScript (b : Beat)
    (cps : List Nat → List (List Nat) → Except GoError PkScript)
    (outpoint : OutPoint) (pkScript : PkScript) :
    Except GoError (Option SpendDetail) :=
  scanBlockTxsScript cps b.epoch.height outpoint pkScript
    (pkScript.scriptClass == ScriptClass.witnessV1TaprootTy)
    b.epoch.block.transactions

/-- The first input of `ins` (indices starting at `i`) spending
`outpoint`. -/
def findSpendingIn (outpoint : OutPoint) :
    List TxIn → Nat → Option (Nat × TxIn)
  | [], _ => none
  | txIn :: rest, i =>
    if txIn.previousOutPoint = outpoint then some (i, txIn)
    else findSpendingIn outpoint rest (i + 1)

/-- The first spending input in scan order over the whole block: the first
transaction owning a spending input, with that input's index and value. -/
def firstSpend (outpoint : OutPoint) :
    List MsgTx → Option (MsgTx × Nat × TxIn)
  | [] => none
  | tx :: rest =>
    match findSpendingIn outpoint tx.txIn 0 with
    | some (i, txIn) => some (tx, i, txIn)
    | none => firstSpend outpoint rest

theorem scanTxInsScript_taproot
    (cps : List Nat → List (List Nat) → Except GoError PkScript)
    (height : Int) (outpoint : OutPoint) (pkScript : PkScript) (tx : MsgTx) :
    ∀ (ins : List TxIn) (i : Nat),
      scanTxInsScript cps height outpoint pkScript true tx i ins =
        .ok (scanTxIns height outpoint tx i ins) := by
  intro ins
  induction ins with
  | nil => intro i; rfl
  | cons txIn rest ih =>
    intro i
    by_cases h : txIn.previousOutPoint = outpoint
    · simp [scanTxInsScript, scanTxIns, matchTxIn, h]
    · simp [scanTxInsScript, scanTxIns, matchTxIn, h, ih]

theorem scanBlockTxsScript_taproot
    (cps : List Nat → List (List Nat) → Except GoError PkScript)
    (height : Int) (outpoint : OutPoint) (pkScript : PkScript) :
    ∀ txs : List MsgTx,
      scanBlockTxsScript cps height outpoint pkScript true txs =
        .ok (scanBlockTxs height outpoint txs) := by
  intro txs
  induction txs with
  | nil => rfl
  | cons tx rest ih =>
    rw [scanBlockTxsScript, scanBlockTxs, scanTxInsScript_taproot]
    cases scanTxIns height outpoint tx 0 tx.txIn with
    | none => simpa using ih
    | some details => rfl

theorem scanTxInsScript_nonTaproot
    (cps : List Nat → List (List Nat) → Except GoError PkScript)
    (height : Int) (outpoint : OutPoint) (pkScript : PkScript) (tx : MsgTx) :
    ∀ (ins : List TxIn) (i : Nat),
      scanTxInsScript cps height outpoint pkScript false tx i ins =
        match findSpendingIn outpoint ins i with
        | none => .ok none
        | some (j, txIn) =>
          match cps txIn.signatureScript txIn.witness with
          | .error err => .error err
          | .ok s =>
            if s ≠ pkScript then
              .error (.wrapf "" ErrPkScriptMismatch
                (": want " ++ reprStr pkScript ++ ", got " ++ reprStr s))
            else .ok (some (mkSpendDetail height outpoint tx j)) := by
  intro ins
  induction ins with
  | nil => intro i; rfl
  | cons txIn rest ih =>
    intro i
    by_cases h : txIn.previousOutPoint = outpoint
    · rw [scanTxInsScript, findSpendingIn]
      rw [if_pos h]
      simp only [matchTxIn, h, ne_eq, not_true_eq_false, if_false,
        Bool.false_eq_true]
      cases hc : cps txIn.signatureScript txIn.witness with
      | error err => rfl
      | ok s =>
        by_cases hs : s = pkScript
        · simp [hs]
        · simp [hs]
    · rw [scanTxInsScript, findSpendingIn]
      rw [if_neg h]
      have hmt : matchTxIn cps outpoint pkScript false txIn = .ok false := by
        simp [matchTxIn, h]
      rw [hmt]
      exact ih (i + 1)

theorem scanBlockTxsScript_nonTaproot
    (cps : List Nat → List (List Nat) → Except GoError PkScript)
    (height : Int) (outpoint : OutPoint) (pkScript : PkScript) :
    ∀ txs : List MsgTx,
      scanBlockTxsScript cps height outpoint pkScript false txs =
        match firstSpend outpoint txs with
        | none => .ok none
        | some (tx, j, txIn) =>
          match cps txIn.signatureScript txIn.witness with
          | .error err => .error err
          | .ok s =>
            if s ≠ pkScript then
              .error (.wrapf "" ErrPkScriptMismatch
                (": want " ++ reprStr pkScript ++ ", got " ++ reprStr s))
            else .ok (some (mkSpendDetail height outpoint tx j)) := by
  intro txs
  induction txs with
  | nil => rfl
  | cons tx rest ih =>
    rw [scanBlockTxsScript, firstSpend, scanTxInsScript_nonTaproot]
    cases hfs : findSpendingIn outpoint tx.txIn 0 with
    | none => simpa using ih
    | some p =>
      rcases p with ⟨j, txIn⟩
      cases hc : cps txIn.signatureScript txIn.witness with
      | error err => simp [hc]
      | ok s =>
        by_cases hs : s = pkScript
        · simp [hc, hs]
        · simp [hc, hs]

theorem findSpendingIn_eq_none (outpoint : OutPoint) (ins : List TxIn)
    (h : ∀ txIn ∈ ins, txIn.previousOutPoint ≠ outpoint) :
    ∀ i, findSpendingIn outpoint ins i = none := by
  induction ins with
  | nil => intro i; rfl
  | cons txIn rest ih =>
    intro i
    rw [findSpendingIn, if_neg (h txIn (List.mem_cons_self txIn rest))]
    exact ih (fun x hx => h x (List.mem_cons_of_mem _ hx)) (i + 1)

theorem firstSpend_eq_none (outpoint : OutPoint) (txs : List MsgTx)
    (h : ∀ tx ∈ txs, ∀ txIn ∈ tx.txIn, txIn.previousOutPoint ≠ outpoint) :
    firstSpend outpoint txs = none := by
  induction txs with
  | nil => rfl
  | cons tx rest ih =>
    rw [firstSpend,
      findSpendingIn_eq_none outpoint tx.txIn
        (h tx (List.mem_cons_self tx rest)) 0]
    exact ih (fun x hx => h x (List.mem_cons_of_mem _ hx))

/-- Claim C5: `HasOutpointSpentByScript(o, p)` scans transactions and inputs
in order; when `p` is a witness-v1 taproot script it behaves exactly as
`HasOutpointSpent` (no script verification) with a `nil` error; when no
input spends `o` it returns `(null, nil)`; when `p` is not taproot and the
first spending input's reconstructed script differs from `p` it returns
`(null, error wrapping ErrPkScriptMismatch)`, and when the reconstructed
script equals `p` it returns the matching `SpendDetail` with `nil` error. -/
theorem hasOutpointSpentByScript_cases (b : Beat)
    (cps : List Nat → List (List Nat) → Except GoError PkScript)
    (outpoint : OutPoint) (pkScript : PkScript) :
    (pkScript.scriptClass = ScriptClass.witnessV1TaprootTy →
        b.HasOutpointSpentByScript cps outpoint pkScript =
          .ok (b.HasOutpointSpent outpoint))
    ∧ ((∀ tx ∈ b.epoch.block.transactions, ∀ txIn ∈ tx.txIn,
          txIn.previousOutPoint ≠ outpoint) →
        b.HasOutpointSpentByScript cps outpoint pkScript = .ok none)
    ∧ (∀ tx i txIn,
        pkScript.scriptClass ≠ ScriptClass.witnessV1TaprootTy →
        firstSpend outpoint b.epoch.block.transactions =
            some (tx, i, txIn) →
        ((∀ s, cps txIn.signatureScript txIn.witness = Except.ok s →
            s ≠ pkScript →
            ∃ err, b.HasOutpointSpentByScript cps outpoint pkScript =
                .error err ∧ err.isErr ErrPkScriptMismatch = true)
          ∧ (cps txIn.signatureScript txIn.witness = Except.ok pkScript →
              b.HasOutpointSpentByScript cps outpoint pkScript =
                .ok (some (mkSpendDetail b.epoch.height outpoint tx i))))) := by
  refine ⟨?_, ?_, ?_⟩
  · intro h
    have hT : (pkScript.scriptClass == ScriptClass.witnessV1TaprootTy) =
        true := by simp [h]
    simp only [Beat.HasOutpointSpentByScript, hT]
    rw [scanBlockTxsScript_taproot]
    rfl
  · intro hno
    cases hT : (pkScript.scriptClass == ScriptClass.witnessV1TaprootTy) with
    | true =>
      simp only [Beat.HasOutpointSpentByScript, hT]
      rw [scanBlockTxsScript_taproot, scanBlockTxs_eq]
      have hfind : b.epoch.block.transactions.find? (txSpends outpoint) =
          none := by
        rw [List.find?_eq_none]
        intro tx htx
        simp only [txSpends, List.any_eq_true, txInSpends, beq_iff_eq,
          not_exists]
        intro txIn
        rw [not_and]
        intro hIn
        exact hno tx htx txIn hIn
      rw [hfind]
    | false =>
      simp only [Beat.HasOutpointSpentByScript, hT]
      rw [scanBlockTxsScript_nonTaproot,
        firstSpend_eq_none outpoint _ hno]
  · intro tx i txIn hnt hfs
    have hT : (pkScript.scriptClass == ScriptClass.witnessV1TaprootTy) =
        false := by simpa using hnt
    constructor
    · intro s hcs hsne
      refine ⟨.wrapf "" ErrPkScriptMismatch
        (": want " ++ reprStr pkScript ++ ", got " ++ reprStr s), ?_, ?_⟩
      · simp only [Beat.HasOutpointSpentByScript, hT]
        rw [scanBlockTxsScript_nonTaproot, hfs]
        simp [hcs, hsne]
      · simp [GoError.isErr, GoError.isErr_self, ErrPkScriptMismatch]
    · intro hcs
      simp only [Beat.HasOutpointSpentByScript, hT]
      rw [scanBlockTxsScript_nonTaproot, hfs]
      simp [hcs]

/-! ## Buffered channels and `fn.SendOrQuit`

The buffer of a capacity-one error channel is an `Option (Option GoError)`:
`none` = empty, `some v` = holding the error value `v` (itself `none` for
Go's `nil` error); a read on a channel whose buffer is `some v` yields `v`
at once and empties it.

`fn.SendOrQuit(c, msg, quit)` selects between sending `msg` on `c` and
receiving from `quit`.  The send case is ready iff the buffer has room; the
quit case is ready iff `quit` has been closed.  When both cases are ready,
Go picks one pseudo-randomly: that choice is the explicit `pickSend`
parameter.  When neither is ready the select blocks. -/

inductive SendOrQuitOutcome where
  | sent
  | quitTaken
  | blocked
deriving DecidableEq, Repr

/-- One `select`-step of `fn.SendOrQuit` on a capacity-one channel: returns
the branch taken and the channel's buffer afterwards. -/
def sendOrQuit (buffer : Option (Option GoError)) (msg : Option GoError)
    (quitClosed : Bool) (pickSend : Bool) :
    SendOrQuitOutcome × Option (Option GoError) :=
  match buffer, quitClosed with
  | none, false => (.sent, some msg)
  | none, true =>
    if pickSend then (.sent, some msg) else (.quitTaken, none)
  | some v, true => (.quitTaken, some v)
  | some v, false => (.blocked, some v)

/-- A store assigning each channel identity its current buffer. -/
def ChanStore : Type := Nat → Option (Option GoError)

/-- The store in which every channel is empty. -/
def emptyChanStore : ChanStore := fun _ => none

/-- Point update of a channel store. -/
def updateChan (s : ChanStore) (i : Nat) (v : Option (Option GoError)) :
    ChanStore :=
  fun j => if j = i then v else s j

/-! ## Beat (error-returning revision, `chainio/blockbeat.go`)

`BeatV2` adds the logger (an identity: `copy` shares the original's
instance, `NewBeat` makes a new one). -/

structure BeatV2 where
  epoch : BlockEpoch
  errorChan : Nat
  log : Nat
deriving DecidableEq, Repr

/-- `NewBeat(epoch)` of the error-returning revision: fresh empty buffered
channel `fresh`, new prefixed logger `logId`. -/
def NewBeatV2 (epoch : BlockEpoch) (fresh : Nat) (logId : Nat)
    (s : ChanStore) : BeatV2 × ChanStore :=
  (⟨epoch, fresh, logId⟩, updateChan s fresh none)

/-- `Beat.Height`. -/
def BeatV2.Height (b : BeatV2) : Int :=
  b.epoch.height

/-- `Beat.NotifyBlockProcessed(err, quitChan)`:
`fn.SendOrQuit(b.errorChan, err, quitChan)`. -/
def BeatV2.NotifyBlockProcessed (b : BeatV2) (err : Option GoError)
    (quitClosed : Bool) (pickSend : Bool) (s : ChanStore) :
    SendOrQuitOutcome × ChanStore :=
  let r := sendOrQuit (s b.errorChan) err quitClosed pickSend
  (r.1, updateChan s b.errorChan r.2)

/-- `Beat.copy()`: same epoch, same logger instance, fresh empty buffered
error channel. -/
def BeatV2.copy (b : BeatV2) (fresh : Nat) (s : ChanStore) :
    BeatV2 × ChanStore :=
  (⟨b.epoch, fresh, b.log⟩, updateChan s fresh none)

/-- What the amended claim C8 asserts of `NotifyBlockProcessed` on a beat
whose channel buffer is empty (as `NewBeat` returns it): the call never
blocks; when `quit` has not been closed it takes the send branch and the
buffer then holds `err`; and whenever the send branch is taken the buffer
holds `err`. -/
def NotifyOnFreshSpec (b : BeatV2) (err : Option GoError)
    (quitClosed : Bool) (pickSend : Bool) (s : ChanStore) : Prop :=
  (b.NotifyBlockProcessed err quitClosed pickSend s).1 ≠ .blocked
  ∧ (quitClosed = false →
      (b.NotifyBlockProcessed err quitClosed pickSend s).1 = .sent
      ∧ (b.NotifyBlockProcessed err quitClosed pickSend s).2 b.errorChan =
          some err)
  ∧ ((b.NotifyBlockProcessed err quitClosed pickSend s).1 = .sent →
      (b.NotifyBlockProcessed err quitClosed pickSend s).2 b.errorChan =
        some err)

/-- Amended claim C8 (see the counterexample for the original): on a fresh
beat the one-slot buffer always has room, so `NotifyBlockProcessed` never
blocks; the quit branch is avoided as long as `quit` has not been closed,
but a closed `quit` may be selected over the ready send. -/
theorem notifyBlockProcessed_never_blocks (b : BeatV2) (err : Option GoError)
    (quitClosed : Bool) (pickSend : Bool) (s : ChanStore)
    (hempty : s b.errorChan = none) :
    NotifyOnFreshSpec b err quitClosed pickSend s := by
  refine ⟨?_, ?_, ?_⟩
  · simp only [BeatV2.NotifyBlockProcessed, hempty, sendOrQuit]
    cases quitClosed with
    | false => simp
    | true =>
      cases pickSend <;> simp
  · intro hq
    subst hq
    simp [BeatV2.NotifyBlockProcessed, hempty, sendOrQuit, updateChan]
  · intro hsent
    simp only [BeatV2.NotifyBlockProcessed, hempty, sendOrQuit] at hsent ⊢
    cases quitClosed with
    | false => simp [updateChan]
    | true =>
      cases hp : pickSend with
      | true => simp [hp, updateChan]
      | false => rw [hp] at hsent; simp at hsent

/-- Witness for the amended claim C8: a fresh beat with `quit` not closed;
the ack is written and subsequently readable. -/
theorem notifyBlockProcessed_never_blocks_witness :
    emptyChanStore (⟨⟨5, ⟨[]⟩⟩, 0, 0⟩ : BeatV2).errorChan = none
    ∧ NotifyOnFreshSpec ⟨⟨5, ⟨[]⟩⟩, 0, 0⟩ (some (.base "boom")) false true
        emptyChanStore :=
  ⟨rfl, notifyBlockProcessed_never_blocks ⟨⟨5, ⟨[]⟩⟩, 0, 0⟩
    (some (.base "boom")) false true emptyChanStore rfl⟩

/-- Counterexample to claim C8 as stated: on a fresh beat with `quit`
already closed, the select may pick the quit branch (`pickSend = false`),
so the call completes having taken the quit branch and the channel stays
empty — no value equal to `err` becomes readable. -/
theorem notifyBlockProcessed_can_take_quit :
    (BeatV2.NotifyBlockProcessed ⟨⟨5, ⟨[]⟩⟩, 0, 0⟩ (some (.base "boom"))
        true false emptyChanStore).1 = SendOrQuitOutcome.quitTaken
    ∧ (BeatV2.NotifyBlockProcessed ⟨⟨5, ⟨[]⟩⟩, 0, 0⟩ (some (.base "boom"))
        true false emptyChanStore).2 0 = none := by
  constructor
  · rfl
  · rfl

/-- What claim C9 asserts of `b.copy()` under allocator freshness
(`fresh ≠ b.errorChan`): the copy keeps the epoch (hence the height) and
the logger instance, gets a fresh empty error channel distinct from `b`'s,
leaves `b`'s buffer untouched, and the two channels are independent: an
error published on the copy (here with `quit` open) lands in the copy's
channel while `b`'s buffer keeps its previous content. -/
def CopyBeatSpec (b : BeatV2) (fresh : Nat) (e : Option GoError)
    (pickSend : Bool) (s : ChanStore) : Prop :=
  (b.copy fresh s).1.epoch = b.epoch
  ∧ (b.copy fresh s).1.Height = b.Height
  ∧ (b.copy fresh s).1.log = b.log
  ∧ (b.copy fresh s).1.errorChan ≠ b.errorChan
  ∧ (b.copy fresh s).2 (b.copy fresh s).1.errorChan = none
  ∧ (b.copy fresh s).2 b.errorChan = s b.errorChan
  ∧ ((b.copy fresh s).1.NotifyBlockProcessed e false pickSend
      (b.copy fresh s).2).2 b.errorChan = s b.errorChan
  ∧ ((b.copy fresh s).1.NotifyBlockProcessed e false pickSend
      (b.copy fresh s).2).2 (b.copy fresh s).1.errorChan = some e

theorem updateChan_same (s : ChanStore) (i : Nat)
    (v : Option (Option GoError)) : updateChan s i v i = v := by
  simp [updateChan]

theorem updateChan_other (s : ChanStore) (i : Nat)
    (v : Option (Option GoError)) (j : Nat) (h : j ≠ i) :
    updateChan s i v j = s j := by
  simp [updateChan, h]

/-- Claim C9: `copy` shares the epoch and logger but owns a fresh
independent one-slot channel. -/
theorem copy_fresh_independent (b : BeatV2) (fresh : Nat)
    (e : Option GoError) (pickSend : Bool) (s : ChanStore)
    (hfresh : fresh ≠ b.errorChan) :
    CopyBeatSpec b fresh e pickSend s := by
  have h1 : b.errorChan ≠ fresh := fun h => hfresh h.symm
  refine ⟨rfl, rfl, rfl, hfresh, ?_, ?_, ?_, ?_⟩
  · show updateChan s fresh none fresh = none
    exact updateChan_same s fresh none
  · show updateChan s fresh none b.errorChan = s b.errorChan
    exact updateChan_other s fresh none b.errorChan h1
  · show updateChan (updateChan s fresh none) fresh
        (sendOrQuit (updateChan s fresh none fresh) e false pickSend).2
        b.errorChan = s b.errorChan
    rw [updateChan_other _ _ _ _ h1, updateChan_other _ _ _ _ h1]
  · show updateChan (updateChan s fresh none) fresh
        (sendOrQuit (updateChan s fresh none fresh) e false pickSend).2
        fresh = some e
    rw [updateChan_same, updateChan_same]
    rfl

/-- Witness for claim C9: a copy of a beat whose own channel already holds
an error; publishing a different error on the copy leaves the original's
buffer intact. -/
theorem copy_fresh_independent_witness :
    (3 ≠ (⟨⟨5, ⟨[]⟩⟩, 0, 9⟩ : BeatV2).errorChan)
    ∧ CopyBeatSpec ⟨⟨5, ⟨[]⟩⟩, 0, 9⟩ 3 (some (.base "boom")) true
        (updateChan emptyChanStore 0 (some (some (.base "dummy")))) :=
  ⟨by decide, copy_fresh_independent ⟨⟨5, ⟨[]⟩⟩, 0, 9⟩ 3 (some (.base "boom"))
    true (updateChan emptyChanStore 0 (some (some (.base "dummy"))))
    (by decide)⟩

/-! ## BeatConsumer helper, channel-returning revision (`unnamed/part_002`)

`ProcessBlock` selects between handing the beat to the subsystem on
`BlockbeatChan` and the consumer's `quit`; the winning branch is the
explicit `sel` parameter (`delivered` requires the subsystem to be reading,
`quitFired` requires `quit` to be closed).  On the quit branch a `nil` ack
is sent into the beat's channel non-blockingly (skipped if the buffer is
full); either way the beat's channel is returned.  `buffer` is the content
of `beat.errChan`'s one-slot buffer on entry. -/

structure BeatConsumer where
  blockbeatChan : Nat
  name : String
  quit : Nat
  currentBeat : Option Beat
deriving DecidableEq, Repr

/-- `NewBeatConsumer(quit, name)`: fresh unbuffered beat channel, no
current beat yet (Go zero value). -/
def NewBeatConsumer (quit : Nat) (name : String) (fresh : Nat) :
    BeatConsumer × Nat :=
  (⟨fresh, name, quit, none⟩, fresh + 1)

inductive DeliverOutcome where
  | delivered
  | quitFired
deriving DecidableEq, Repr

/-- `BeatConsumer.ProcessBlock(beat)` of the channel-returning revision:
record the beat as current (`setCurrentBeat`), then select; returns the
updated consumer, the buffer of `beat.errChan` afterwards, and the channel
identity handed back to the caller. -/
def BeatConsumer.ProcessBlock (bc : BeatConsumer) (beat : Beat)
    (buffer : Option (Option GoError)) (sel : DeliverOutcome) :
    BeatConsumer × Option (Option GoError) × Nat :=
  let bc' := { bc with currentBeat := some beat }
  match sel with
  | .delivered => (bc', buffer, beat.errChan)
  | .quitFired =>
    let buffer' :=
      match buffer with
      | none => some none
      | some v => some v
    (bc', buffer', beat.errChan)

/-- Claim C6: whatever branch fires, `ProcessBlock` hands back the beat's
ack channel; and when `quit` fires first on a freshly delivered beat (empty
buffer, as `notifyAndWait` constructs it), the buffer afterwards holds the
`nil` value, so the dispatcher's read yields `nil` without deadlock. -/
theorem processBlock_quit_acks_nil (bc : BeatConsumer) (beat : Beat) :
    (∀ buffer sel,
      (bc.ProcessBlock beat buffer sel).2.2 = beat.errChan)
    ∧ (bc.ProcessBlock beat none DeliverOutcome.quitFired).2.1 =
        some none := by
  refine ⟨?_, rfl⟩
  intro buffer sel
  cases sel <;> rfl

/-- Claim C7: the channel-returning `ProcessBlock` writes into the beat's
ack channel only on the quit-preempted-send path, and what it writes is the
`nil` ack (and only into an empty buffer); on the delivered path it returns
with the buffer exactly as it was. -/
theorem processBlock_writes_only_nil_on_quit (bc : BeatConsumer)
    (beat : Beat) (buffer : Option (Option GoError)) :
    (bc.ProcessBlock beat buffer DeliverOutcome.delivered).2.1 = buffer
    ∧ (bc.ProcessBlock beat buffer DeliverOutcome.quitFired).2.1 =
        (match buffer with
          | none => some none
          | some v => some v)
    ∧ (∀ v, (bc.ProcessBlock beat buffer DeliverOutcome.quitFired).2.1 =
          some v → buffer = some v ∨ v = none) := by
  refine ⟨rfl, rfl, ?_⟩
  intro v hv
  cases buffer with
  | none =>
    right
    have : (some (none : Option GoError)) = some v := hv
    injection this with h
    exact h.symm
  | some w =>
    left
    have : (some w : Option (Option GoError)) = some v := hv
    rw [this]

/-! ## BeatConsumer helper, error-returning revision (`chainio/consumer.go`)

Here `ProcessBlock` performs both selects itself: hand-off, then waiting on
the beat's error channel against `quit`.  The scenario parameter says which
of the three paths ran: the beat was delivered and the subsystem acked with
`err`; `quit` preempted the hand-off; or `quit` preempted the ack wait. -/

structure BeatConsumerV2 where
  blockbeatChan : Nat
  name : String
  quit : Nat
  currentBeat : Option BeatV2
deriving DecidableEq, Repr

inductive ProcessScenario where
  | deliveredAck (err : Option GoError)
  | quitBeforeSend
  | quitBeforeAck
deriving DecidableEq, Repr

/-- `BeatConsumer.ProcessBlock(beat)` of the error-returning revision:
record the beat as current, run the two selects, return the ack (or `nil`
on either quit path) together with the updated consumer. -/
def BeatConsumerV2.ProcessBlock (bc : BeatConsumerV2) (beat : BeatV2)
    (sc : ProcessScenario) : BeatConsumerV2 × Option GoError :=
  let bc' := { bc with currentBeat := some beat }
  match sc with
  | .deliveredAck err => (bc', err)
  | .quitBeforeSend => (bc', none)
  | .quitBeforeAck => (bc', none)

/-- Claim C10: every call to `ProcessBlock` sets `currentBeat` to the beat
argument before attempting delivery, on all three paths, and modifies
no other field of the consumer. -/
theorem processBlock_sets_currentBeat (bc : BeatConsumerV2) (beat : BeatV2)
    (sc : ProcessScenario) :
    (bc.ProcessBlock beat sc).1.currentBeat = some beat
    ∧ (bc.ProcessBlock beat sc).1.blockbeatChan = bc.blockbeatChan
    ∧ (bc.ProcessBlock beat sc).1.name = bc.name
    ∧ (bc.ProcessBlock beat sc).1.quit = bc.quit := by
  cases sc <;> exact ⟨rfl, rfl, rfl, rfl⟩

/-! Concrete evaluations anchoring the executable definitions. -/

example :
    Beat.HasOutpointSpent
      ⟨⟨9, ⟨[⟨100, [⟨⟨1, 0⟩, [], []⟩, ⟨⟨2, 5⟩, [], []⟩]⟩]⟩⟩, 0⟩ ⟨2, 5⟩ =
      some ⟨⟨2, 5⟩, 100, ⟨100, [⟨⟨1, 0⟩, [], []⟩, ⟨⟨2, 5⟩, [], []⟩]⟩, 1, 9⟩ :=
  rfl

example :
    Beat.HasOutpointSpent
      ⟨⟨9, ⟨[⟨100, [⟨⟨1, 0⟩, [], []⟩]⟩]⟩⟩, 0⟩ ⟨2, 5⟩ = none :=
  rfl

example :
    (Beat.DispatchSequential ⟨⟨7, ⟨[]⟩⟩, 0⟩
      [⟨"a", .ack none⟩, ⟨"b", .timeout⟩, ⟨"c", .ack none⟩] 1).2.1.map
        Prod.fst = ["a", "b"] :=
  rfl

example :
    (Beat.DispatchConcurrent ⟨⟨7, ⟨[]⟩⟩, 0⟩
      [⟨"a", .ack none⟩, ⟨"b", .ack none⟩] ["b", "a"] 1).2 = ["b", "a"] :=
  rfl

end Chainio
